import Mathlib

/-!
# Verification of the hakoniwa AWS Lambda transport core

A shallow embedding of `hakoniwa/impl_lambda.py`, `hakoniwa/web.py` and
`hakoniwa/httputils.py`.  Python `bytes` values are modelled as `List Nat`
(each element `< 256`); Python `str` values used as request/response bodies
are modelled as `List Nat` of Unicode code points; header names and values
are modelled as Lean `String`s.  Fallible Python code (raising exceptions)
is modelled with `Except`.
-/

set_option maxRecDepth 4000

namespace Hakoniwa

/-- Python `bytes`: a list of byte values (each `< 256`). -/
abbrev PyBytes := List Nat

/-- Python `str` as a list of Unicode code points (used for bodies, where the
exact code-point sequence matters for UTF-8 and base64 transcoding). -/
abbrev PyStr := List Nat

/-- The exceptions raised by the code paths under verification.
`httpError` embeds `hakoniwa.exceptions.HttpError`; the others embed the
Python built-in exceptions that the source can raise. -/
inductive HakoError where
  | httpError (status : Nat) (msg : String)
  | keyError (key : String)
  | typeError (msg : String)
  | valueError (msg : String)
  | binasciiError
  | unicodeEncodeError (msg : String)
  | assertionError (msg : String)
  deriving Repr, DecidableEq

/-! ## ASCII case folding

`magicdict.TolerantMagicDict` folds header-name case and
`str.upper()` / `str.lower()` are applied to method and scheme strings.
All names involved (HTTP methods, header names, schemes) are ASCII, so the
embedding implements ASCII case folding. -/

/-- ASCII lower-casing of one character (`str.lower` restricted to ASCII). -/
def lowerChar (c : Char) : Char :=
  if h : 65 ≤ c.toNat ∧ c.toNat ≤ 90 then
    Char.ofNatAux (c.toNat + 32) (Or.inl (by omega))
  else c

/-- ASCII upper-casing of one character (`str.upper` restricted to ASCII). -/
def upperChar (c : Char) : Char :=
  if h : 97 ≤ c.toNat ∧ c.toNat ≤ 122 then
    Char.ofNatAux (c.toNat - 32) (Or.inl (by omega))
  else c

/-- ASCII `str.lower`. -/
def asciiLower (s : String) : String := String.mk (s.data.map lowerChar)

/-- ASCII `str.upper`. -/
def pyUpper (s : String) : String := String.mk (s.data.map upperChar)

/-! ## Base64 (`base64.b64encode` / `base64.b64decode` on canonical input)

The standard base64 alphabet with `=` padding.  `b64decode` models Python's
decoder on well-formed input (length a multiple of four, alphabet characters
only, padding only at the end); on such input Python raises no error and
the two agree byte-for-byte. -/

/-- The character (as a code point) at index `n < 64` of the standard
base64 alphabet. -/
def b64Char (n : Nat) : Nat :=
  if n < 26 then 65 + n
  else if n < 52 then 97 + (n - 26)
  else if n < 62 then 48 + (n - 52)
  else if n = 62 then 43
  else 47

/-- The index of code point `c` in the standard base64 alphabet, `none` for
a character outside the alphabet. -/
def b64Index (c : Nat) : Option Nat :=
  if 65 ≤ c ∧ c ≤ 90 then some (c - 65)
  else if 97 ≤ c ∧ c ≤ 122 then some (26 + (c - 97))
  else if 48 ≤ c ∧ c ≤ 57 then some (52 + (c - 48))
  else if c = 43 then some 62
  else if c = 47 then some 63
  else none

/-- `base64.b64encode`: bytes to base64 text (as code points), with padding. -/
def b64encode : PyBytes → PyStr
  | [] => []
  | [a] => [b64Char (a / 4), b64Char (a % 4 * 16), 61, 61]
  | [a, b] => [b64Char (a / 4), b64Char (a % 4 * 16 + b / 16), b64Char (b % 16 * 4), 61]
  | a :: b :: c :: rest =>
      b64Char (a / 4) :: b64Char (a % 4 * 16 + b / 16) ::
        b64Char (b % 16 * 4 + c / 64) :: b64Char (c % 64) :: b64encode rest

/-- `base64.b64decode` on well-formed base64 text: processes four characters
at a time; `=` padding is accepted only at the very end. -/
def b64decode : PyStr → Option PyBytes
  | [] => some []
  | c1 :: c2 :: c3 :: c4 :: rest =>
      match b64Index c1, b64Index c2 with
      | some i1, some i2 =>
        if c3 = 61 then
          if c4 = 61 ∧ rest = [] then some [i1 * 4 + i2 / 16] else none
        else
          match b64Index c3 with
          | some i3 =>
            if c4 = 61 then
              if rest = [] then some [i1 * 4 + i2 / 16, i2 % 16 * 16 + i3 / 4] else none
            else
              match b64Index c4, b64decode rest with
              | some i4, some tail =>
                  some ((i1 * 4 + i2 / 16) :: (i2 % 16 * 16 + i3 / 4) :: (i3 % 4 * 64 + i4) :: tail)
              | _, _ => none
          | none => none
      | _, _ => none
  | _ => none

/-- `binascii.a2b_base64` in its default non-strict mode, as called by
`base64.b64decode`: scan the characters, discarding any outside the base64
alphabet; `=` is ignored while fewer than two data characters of the current
group have been seen, and otherwise completes the group — ending the scan
with the bytes emitted so far (excess input ignored) — once the group's data
characters plus the padding seen reach four; at end of input a pending group
(one data character, or two or three with too little padding) fails with
`binascii.Error`.  Arguments: input, position in the current four-character
group, pending bits, padding characters seen for the group, output so far. -/
def a2bBase64Aux : PyStr → Nat → Nat → Nat → PyBytes → Except HakoError PyBytes
  | [], quad_pos, _, _, acc =>
      if quad_pos = 0 then Except.ok acc else Except.error HakoError.binasciiError
  | c :: rest, quad_pos, leftchar, pads, acc =>
      if c = 61 then
        if 2 ≤ quad_pos then
          if 4 ≤ quad_pos + (pads + 1) then Except.ok acc
          else a2bBase64Aux rest quad_pos leftchar (pads + 1) acc
        else a2bBase64Aux rest quad_pos leftchar pads acc
      else
        match b64Index c with
        | none => a2bBase64Aux rest quad_pos leftchar pads acc
        | some v =>
          match quad_pos with
          | 0 => a2bBase64Aux rest 1 v 0 acc
          | 1 => a2bBase64Aux rest 2 (v % 16) 0 (acc ++ [leftchar * 4 + v / 16])
          | 2 => a2bBase64Aux rest 3 (v % 4) 0 (acc ++ [leftchar * 16 + v / 4])
          | _ => a2bBase64Aux rest 0 0 0 (acc ++ [leftchar * 64 + v])

/-- `base64.b64decode` on a `str` argument with the default
`validate=False`: `_bytes_from_decode_data` ASCII-encodes the string
(raising `ValueError` on a non-ASCII character), then `binascii.a2b_base64`
decodes it leniently. -/
def pyB64Decode (s : PyStr) : Except HakoError PyBytes :=
  if s.any (fun c => 128 ≤ c) then
    Except.error (HakoError.valueError "string argument should contain only ASCII characters")
  else a2bBase64Aux s 0 0 0 []

/-! ## UTF-8 (`str.encode` / `bytes.decode`)

`utf8Encode` models Python's `str.encode()` on a sequence of code points;
`utf8Decode` models strict `bytes.decode()` (rejecting overlong forms,
surrogates and code points above U+10FFFF), returning `none` exactly when
Python raises `UnicodeDecodeError`. -/

/-- UTF-8 encoding of a single code point. -/
def utf8EncodeChar (c : Nat) : PyBytes :=
  if c < 128 then [c]
  else if c < 2048 then [192 + c / 64, 128 + c % 64]
  else if c < 65536 then [224 + c / 4096, 128 + c / 64 % 64, 128 + c % 64]
  else [240 + c / 262144, 128 + c / 4096 % 64, 128 + c / 64 % 64, 128 + c % 64]

/-- UTF-8 encoding of a code-point sequence. -/
def utf8Encode (cs : PyStr) : PyBytes := (cs.map utf8EncodeChar).flatten

/-- Python `str.encode()`: UTF-8 encoding of the string, raising
`UnicodeEncodeError` when it contains a lone surrogate (U+D800 - U+DFFF),
which `json.loads` can place in a Python `str`.  Code points above U+10FFFF
cannot occur in a Python `str`. -/
def pyStrEncode (s : PyStr) : Except HakoError PyBytes :=
  if s.any (fun c => 55296 ≤ c ∧ c ≤ 57343) then
    Except.error (HakoError.unicodeEncodeError "surrogates not allowed")
  else Except.ok (utf8Encode s)

/-- Strict UTF-8 decoding of one encoded code point: given the first byte and
the remaining bytes, returns the code point and the bytes left over, or `none`
on an invalid, overlong, surrogate or truncated sequence. -/
def utf8DecodeOne (b : Nat) (rest : PyBytes) : Option (Nat × PyBytes) :=
  if b < 128 then some (b, rest)
  else if 194 ≤ b ∧ b ≤ 223 then
    match rest with
    | b2 :: rest2 =>
        if 128 ≤ b2 ∧ b2 ≤ 191 then some ((b - 192) * 64 + (b2 - 128), rest2) else none
    | [] => none
  else if 224 ≤ b ∧ b ≤ 239 then
    match rest with
    | b2 :: b3 :: rest3 =>
        if (if b = 224 then 160 ≤ b2 ∧ b2 ≤ 191
            else if b = 237 then 128 ≤ b2 ∧ b2 ≤ 159
            else 128 ≤ b2 ∧ b2 ≤ 191) ∧ 128 ≤ b3 ∧ b3 ≤ 191 then
          some ((b - 224) * 4096 + (b2 - 128) * 64 + (b3 - 128), rest3)
        else none
    | _ => none
  else if 240 ≤ b ∧ b ≤ 244 then
    match rest with
    | b2 :: b3 :: b4 :: rest4 =>
        if (if b = 240 then 144 ≤ b2 ∧ b2 ≤ 191
            else if b = 244 then 128 ≤ b2 ∧ b2 ≤ 143
            else 128 ≤ b2 ∧ b2 ≤ 191) ∧ (128 ≤ b3 ∧ b3 ≤ 191) ∧ (128 ≤ b4 ∧ b4 ≤ 191) then
          some ((b - 240) * 262144 + (b2 - 128) * 4096 + (b3 - 128) * 64 + (b4 - 128), rest4)
        else none
    | _ => none
  else none

/-- The decoding loop, structurally recursive on a step budget.  Every step
consumes at least the lead byte, so a budget of the byte count never runs
out (see `utf8DecodeOne_length`). -/
def utf8DecodeFuel : Nat → PyBytes → Option PyStr
  | _, [] => some []
  | 0, _ :: _ => none
  | fuel + 1, b :: rest =>
    match utf8DecodeOne b rest with
    | some (cp, rest') =>
      match utf8DecodeFuel fuel rest' with
      | some cps => some (cp :: cps)
      | none => none
    | none => none

/-- Strict UTF-8 decoding (Python `bytes.decode()`), `none` on invalid input. -/
def utf8Decode (bs : PyBytes) : Option PyStr := utf8DecodeFuel bs.length bs

/-! ## Header/Query container

Modelled from the spec: the Header/Query Container
(`magicdict.FrozenTolerantMagicDict`) is a dependency whose code is not under
`src/`.  Per §3 and §4.1 of the spec it is an ordered, case-insensitive,
multi-valued mapping, immutable after construction, where case folding
applies to names only and insertion order is preserved.  It is modelled as
the ordered list of `(name, value)` pairs with the names case-folded at
construction time. -/

/-- An ordered multi-valued mapping with case-folded names. -/
abbrev TolerantDict := List (String × String)

/-- Modelled from the spec: `magicdict.FrozenTolerantMagicDict(pairs)` —
construction stores the pairs in order with names case-folded. -/
def mkTolerantDict (pairs : List (String × String)) : TolerantDict :=
  pairs.map (fun p => (asciiLower p.1, p.2))

/-- Modelled from the spec: `get_all(name)` — all values whose name matches
case-insensitively, in insertion order. -/
def getAll (d : TolerantDict) (name : String) : List String :=
  (d.filter (fun p => p.1 = asciiLower name)).map (fun p => p.2)

/-- Modelled from the spec: `get_first(name, default)` — the first value whose
name matches case-insensitively, or the default. -/
def getFirst (d : TolerantDict) (name : String) (dflt : String) : String :=
  match d.find? (fun p => p.1 = asciiLower name) with
  | some p => p.2
  | none => dflt

/-- Flattening of a transport `name → list-of-values` map into `(name, value)`
pairs, as done by the nested loops in `LambdaRequest.__init__`. -/
def flattenMulti (m : List (String × List String)) : List (String × String) :=
  (m.map (fun p => p.2.map (fun v => (p.1, v)))).flatten

/-- One step of the grouping loop in `LambdaResponse.translate`:
`if header_name not in header_lists: header_lists[header_name] = []` followed
by `header_lists[header_name].append(header_val)`, with Python's dict
preserving first-insertion order of keys. -/
def dictSetDefaultAppend (d : List (String × List String)) (k : String) (v : String) :
    List (String × List String) :=
  if d.any (fun q => q.1 = k) then
    d.map (fun q => if q.1 = k then (q.1, q.2 ++ [v]) else q)
  else d ++ [(k, [v])]

/-- One iteration of the header loop in `LambdaResponse.translate`: skip a
`content-length` pair, group any other pair into the dictionary. -/
def groupStep (d : List (String × List String)) (p : String × String) :
    List (String × List String) :=
  if p.1 = "content-length" then d else dictSetDefaultAppend d p.1 p.2

/-- The header grouping loop of `LambdaResponse.translate`: group `(name,
value)` pairs into a `name → list-of-values` mapping, skipping
`content-length`. -/
def groupHeaders (pairs : List (String × String)) : List (String × List String) :=
  pairs.foldl groupStep []

/-! ## Constants (`hakoniwa.constants`)

Modelled from the spec: `hakoniwa.constants` is not under `src/`.  Per §4.2
method and protocol version are "closed enums" constructed from
transport-provided strings, "failing with a validation error on an
unrecognized value" (Python enums raise `ValueError`). -/

/-- Modelled from the spec: the closed enum of HTTP request methods
(`constants.HttpRequestMethod`). -/
inductive HttpRequestMethod where
  | get | head | post | put | delete | options | patch | trace | connect
  deriving Repr, DecidableEq

/-- The enum lookup underlying `constants.HttpRequestMethod(s)`. -/
def HttpRequestMethod.fromString : String → Option HttpRequestMethod
  | "GET" => some .get
  | "HEAD" => some .head
  | "POST" => some .post
  | "PUT" => some .put
  | "DELETE" => some .delete
  | "OPTIONS" => some .options
  | "PATCH" => some .patch
  | "TRACE" => some .trace
  | "CONNECT" => some .connect
  | _ => none

/-- Modelled from the spec: the closed enum of HTTP protocol versions
(`constants.HttpVersion`). -/
inductive HttpVersion where
  | v1_0 | v1_1
  deriving Repr, DecidableEq

/-- The enum lookup underlying `constants.HttpVersion(s)`. -/
def HttpVersion.fromString : String → Option HttpVersion
  | "HTTP/1.0" => some .v1_0
  | "HTTP/1.1" => some .v1_1
  | _ => none

/-- Modelled from the spec: the closed enum of HTTP schemes
(`constants.HttpScheme`). -/
inductive HttpScheme where
  | http | https
  deriving Repr, DecidableEq

/-- The enum lookup underlying `constants.HttpScheme(s)`. -/
def HttpScheme.fromString : String → Option HttpScheme
  | "http" => some .http
  | "https" => some .https
  | _ => none

/-- `constants.HttpRequestMethod(s.upper())` as evaluated on line 43 of
`impl_lambda.py`: upper-case then look the enum member up, raising
`ValueError` on an unrecognized value. -/
def parseMethod (s : String) : Except HakoError HttpRequestMethod :=
  match HttpRequestMethod.fromString (pyUpper s) with
  | some m => Except.ok m
  | none => Except.error (HakoError.valueError (pyUpper s))

/-- `constants.HttpVersion(protocol)` as evaluated on lines 44-46 of
`impl_lambda.py`. -/
def parseVersion (s : String) : Except HakoError HttpVersion :=
  match HttpVersion.fromString s with
  | some v => Except.ok v
  | none => Except.error (HakoError.valueError s)

/-! ## The AWS Lambda event and response (`hakoniwa.impl_lambda`) -/

/-- The inbound AWS Lambda event, restricted to the fields `LambdaRequest`
reads.  `body` distinguishes an absent key (`none`), a JSON `null`
(`some none`) and a string (`some (some s)`); the body string is carried as
code points. -/
structure LambdaEvent where
  isBase64Encoded : Bool
  body : Option (Option PyStr)
  httpMethod : String
  protocol : String
  path : Option String
  domainName : Option String
  multiValueQueryStringParameters : Option (Option (List (String × List String)))
  multiValueHeaders : List (String × List String)

/-- The body-decoding step of `LambdaRequest.__init__` (lines 37-41):
`base64.b64decode(event["body"])` when flagged, otherwise
`event["body"].encode() if event["body"] else b""`.  A missing `body` key
raises `KeyError`; `b64decode(None)` raises `TypeError`; `b64decode` of a
string is lenient (`pyB64Decode`); `str.encode` raises on lone surrogates
(`pyStrEncode`). -/
def eventBodyBytes (e : LambdaEvent) : Except HakoError PyBytes :=
  if e.isBase64Encoded then
    match e.body with
    | none => Except.error (HakoError.keyError "body")
    | some none => Except.error (HakoError.typeError "b64decode expects str or bytes, not NoneType")
    | some (some s) => pyB64Decode s
  else
    match e.body with
    | none => Except.error (HakoError.keyError "body")
    | some none => Except.ok []
    | some (some s) => if s = [] then Except.ok [] else pyStrEncode s

/-- The outbound response object (`LambdaResponse`).  The back-reference to
the owning request is omitted (it would be mutually recursive); `finished`
models the `asyncio.Event`. -/
structure LambdaResponse where
  status_code : Nat
  headers : TolerantDict
  body_chunks : List PyBytes
  finished : Bool
  deriving Repr, DecidableEq

/-- `LambdaResponse.write(data)` (lines 201-204): appends a non-empty chunk
to the body; an empty chunk is a no-op.  There is no check of the finished
state. -/
def LambdaResponse.write (resp : LambdaResponse) (data : PyBytes) : LambdaResponse :=
  if data ≠ [] then { resp with body_chunks := resp.body_chunks ++ [data] } else resp

/-- `LambdaResponse.finish()` (lines 206-208): sets the finished event. -/
def LambdaResponse.finish (resp : LambdaResponse) : LambdaResponse :=
  { resp with finished := true }

/-- The outbound AWS Lambda envelope returned by `translate`. -/
structure LambdaEnvelope where
  isBase64Encoded : Bool
  statusCode : Nat
  multiValueHeaders : List (String × List String)
  body : PyStr
  deriving Repr, DecidableEq

/-- `LambdaResponse.translate()` (lines 218-247): asserts the response is
finished, groups headers (dropping `content-length`), joins the body chunks
and emits them as UTF-8 text or, failing that, as base64 text. -/
def LambdaResponse.translate (resp : LambdaResponse) : Except HakoError LambdaEnvelope :=
  if resp.finished then
    match utf8Decode resp.body_chunks.flatten with
    | some cps =>
        Except.ok
          { isBase64Encoded := false, statusCode := resp.status_code,
            multiValueHeaders := groupHeaders resp.headers, body := cps }
    | none =>
        Except.ok
          { isBase64Encoded := true, statusCode := resp.status_code,
            multiValueHeaders := groupHeaders resp.headers,
            body := b64encode resp.body_chunks.flatten }
  else Except.error (HakoError.assertionError "This response is not finished.")

/-- The request object (`LambdaRequest`).  `res_fur` is the Coordination
Slot: the `asyncio.Future` is modelled by its result, `none` while
unassigned. -/
structure LambdaRequest where
  body : PyBytes
  method : HttpRequestMethod
  version : HttpVersion
  uri : String
  authority : Option String
  queries : TolerantDict
  headers : TolerantDict
  scheme : Option HttpScheme
  res_fur : Option LambdaResponse

/-- The scheme derivation of `LambdaRequest.__init__` (lines 72-73):
`HttpScheme(scheme_str) if scheme_str else None` over the lower-cased first
`x-forwarded-proto` header. -/
def parseScheme (headers : TolerantDict) : Except HakoError (Option HttpScheme) :=
  let schemeStr := asciiLower (getFirst headers "x-forwarded-proto" "")
  if schemeStr = "" then Except.ok Option.none
  else
    match HttpScheme.fromString schemeStr with
    | some sch => Except.ok (some sch)
    | none => Except.error (HakoError.valueError schemeStr)

/-- `LambdaRequest.__init__(event)` (lines 33-75): decode the body, parse
method and version, default the path, flatten queries and headers, derive
the scheme, and start with an empty Coordination Slot, in source order. -/
def mkLambdaRequest (e : LambdaEvent) : Except HakoError LambdaRequest :=
  match eventBodyBytes e with
  | Except.error err => Except.error err
  | Except.ok body =>
    match parseMethod e.httpMethod with
    | Except.error err => Except.error err
    | Except.ok method =>
      match parseVersion e.protocol with
      | Except.error err => Except.error err
      | Except.ok version =>
        match parseScheme (mkTolerantDict (flattenMulti e.multiValueHeaders)) with
        | Except.error err => Except.error err
        | Except.ok scheme =>
          Except.ok
            { body := body, method := method, version := version,
              uri := e.path.getD "/", authority := e.domainName,
              queries := mkTolerantDict
                (flattenMulti ((e.multiValueQueryStringParameters.getD none).getD [])),
              headers := mkTolerantDict (flattenMulti e.multiValueHeaders),
              scheme := scheme, res_fur := none }

/-- `LambdaRequest.write_response(status_code, headers)` (lines 134-154): if
the Coordination Slot future is already done, raise
`HttpError(500, "You can only write response once.")`; otherwise construct a
`LambdaResponse`, assign it into the slot, and return it.  The check and the
assignment run with no suspension point between them.  Returns the produced
value (or the error) together with the updated request. -/
def writeResponse (req : LambdaRequest) (status_code : Nat)
    (headers : List (String × String)) :
    Except HakoError LambdaResponse × LambdaRequest :=
  if req.res_fur.isSome then
    (Except.error (HakoError.httpError 500 "You can only write response once."), req)
  else
    let response : LambdaResponse :=
      { status_code := status_code, headers := mkTolerantDict headers,
        body_chunks := [], finished := false }
    (Except.ok response, { req with res_fur := some response })

/-! ## Dispatch orchestrator (`hakoniwa.web.Application.process_request`)

The handler machinery (`hakoniwa.handlers.BaseRequestHandler` and its
`_process_request` entry point) is not under `src/`. -/

/-- Modelled from the spec: a request handler, reduced to its observable
behaviour through `_process_request` (spec §6/§7): a `before` hook that may
raise an HTTP-semantic error, and the remaining handler processing, which
yields a transaction status and a list of handler-specific side effects. -/
structure ModelHandler where
  before : Except (Nat × String) Unit
  run : Nat × List String

/-- Modelled from the spec: `BaseRequestHandler._process_request` is not
under `src/`.  Per §6/§7 the handler's entry point runs its hooks and body;
an `HttpError` raised by handler logic is recovered by the orchestrator into
a minimal response carrying that status, skipping the rest of the handler.
The result is the transaction's (status, handler side effects). -/
def runHandler (h : ModelHandler) : Nat × List String :=
  match h.before with
  | Except.error e => (e.1, [])
  | Except.ok _ => h.run

/-- `Application.DefaultHandler` (web.py lines 57-59): its `before` hook
unconditionally raises `HttpError(NOT_FOUND)` (status 404).  The inherited
remainder of the handler (`run`) is arbitrary — it is never reached. -/
def Application.DefaultHandler (run : Nat × List String) : ModelHandler :=
  { before := Except.error (404, "Not Found"), run := run }

/-- `Application.process_request(request)` (web.py lines 131-141): resolve
the path with the external router; on `NoMatchesFound` substitute
`DefaultHandler`; then invoke the handler's `_process_request`.  The router
is the external `resolve(path) -> handler | NoMatch` capability of spec §6,
passed as a function. -/
def processRequest (resolve : String → Option ModelHandler)
    (defaultRun : Nat × List String) (path : String) : Nat × List String :=
  let handler :=
    match resolve path with
    | some h => h
    | none => Application.DefaultHandler defaultRun
  runHandler handler

/-! ## HTTP timestamp formatting (`hakoniwa.httputils.format_timestamp`)

`format_timestamp` dispatches on the argument type and delegates to
`email.utils.formatdate(ts, usegmt=True)`, converting broken-down times with
`calendar.timegm`.  The embedding implements the civil-calendar arithmetic
of those library routines over `Int` (Python's float timestamps are covered
at whole-second instants, the resolution at which the HTTP date is
rendered). -/

/-- Days from the civil epoch 1970-01-01 of year/month/day (proleptic
Gregorian; the arithmetic of `datetime.date.toordinal`), for `1 ≤ m ≤ 12`. -/
def daysFromCivil (y m d : Int) : Int :=
  let y' := if m ≤ 2 then y - 1 else y
  let era := Int.ediv y' 400
  let yoe := y' - era * 400
  let mp := Int.emod (m + 9) 12
  let doy := Int.ediv (153 * mp + 2) 5 + d - 1
  let doe := yoe * 365 + Int.ediv yoe 4 - Int.ediv yoe 100 + doy
  era * 146097 + doe - 719468

/-- A broken-down UTC time as consumed by `calendar.timegm` (the first six
fields of a Python time tuple / `struct_time`). -/
structure TimeTuple where
  year : Int
  mon : Int
  mday : Int
  hour : Int
  min : Int
  sec : Int

/-- `calendar.timegm(t)`: seconds since the epoch of a broken-down UTC time,
computed as `(date(year, month, 1).toordinal() - epoch_ordinal + day - 1)`
days plus the time of day. -/
def timegm (t : TimeTuple) : Int :=
  ((daysFromCivil t.year t.mon 1 + t.mday - 1) * 24 + t.hour) * 3600 + t.min * 60 + t.sec

/-- Year, month and day from a count of days since 1970-01-01 (the
arithmetic of `datetime.date.fromordinal`). -/
def civilFromDays (z0 : Int) : Int × Int × Int :=
  let z := z0 + 719468
  let era := Int.ediv z 146097
  let doe := z - era * 146097
  let yoe := Int.ediv (doe - Int.ediv doe 1460 + Int.ediv doe 36524 - Int.ediv doe 146096) 365
  let y := yoe + era * 400
  let doy := doe - (365 * yoe + Int.ediv yoe 4 - Int.ediv yoe 100)
  let mp := Int.ediv (5 * doy + 2) 153
  let d := doy - Int.ediv (153 * mp + 2) 5 + 1
  let m := if mp < 10 then mp + 3 else mp - 9
  (if m ≤ 2 then y + 1 else y, m, d)

/-- `"%02d"` for the day and time fields of the HTTP date. -/
def pad2 (n : Int) : String :=
  if 0 ≤ n ∧ n < 10 then "0" ++ toString n else toString n

/-- `"%04d"` for the year field of the HTTP date. -/
def pad4 (n : Int) : String :=
  if 0 ≤ n ∧ n < 10 then "000" ++ toString n
  else if 0 ≤ n ∧ n < 100 then "00" ++ toString n
  else if 0 ≤ n ∧ n < 1000 then "0" ++ toString n
  else toString n

/-- Abbreviated day names, indexed by `tm_wday` (Monday = 0). -/
def dayNames : List String := ["Mon", "Tue", "Wed", "Thu", "Fri", "Sat", "Sun"]

/-- Abbreviated month names, indexed by month - 1. -/
def monthNames : List String :=
  ["Jan", "Feb", "Mar", "Apr", "May", "Jun", "Jul", "Aug", "Sep", "Oct", "Nov", "Dec"]

/-- The date-and-time part of `email.utils.formatdate(ts, usegmt=True)`:
`'%a, %02d %s %04d %02d:%02d:%02d'` over the UTC broken-down form of the
epoch timestamp. -/
def httpDateBody (ts : Int) : String :=
  let days := Int.ediv ts 86400
  let secs := Int.emod ts 86400
  let ymd := civilFromDays days
  let wd := (Int.emod (days + 3) 7).toNat
  dayNames.getD wd "Mon" ++ ", " ++ pad2 ymd.2.2 ++ " " ++
    monthNames.getD (ymd.2.1 - 1).toNat "Jan" ++ " " ++ pad4 ymd.1 ++ " " ++
    pad2 (Int.ediv secs 3600) ++ ":" ++ pad2 (Int.ediv (Int.emod secs 3600) 60) ++ ":" ++
    pad2 (Int.emod secs 60)

/-- `email.utils.formatdate(ts, usegmt=True)`: the date-and-time part with
the `GMT` zone suffix. -/
def formatdateGmt (ts : Int) : String := httpDateBody ts ++ " GMT"

/-- A `datetime.datetime` as consumed by `format_timestamp`: a timezone-aware
calendar timestamp, represented by its UTC broken-down time
(`utctimetuple()`). -/
structure PyDatetime where
  utc : TimeTuple

/-- The possible arguments of `format_timestamp`: `None` (the default),
an epoch-seconds number, a time tuple, a `struct_time`, a `datetime`, or a
value of any other type (carrying its textual representation for the
`TypeError` message). -/
inductive PyTsArg where
  | noneArg
  | intTs (n : Int)
  | tupleTs (t : TimeTuple)
  | structTimeTs (t : TimeTuple)
  | datetimeTs (d : PyDatetime)
  | otherArg (txt : String)

/-- `hakoniwa.httputils.format_timestamp(ts)` (httputils.py lines 33-54).
`now` supplies the value of `time.time()` used when `ts is None`. -/
def format_timestamp (now : Int) (ts : PyTsArg) : Except HakoError String :=
  match ts with
  | PyTsArg.noneArg => Except.ok (formatdateGmt now)
  | PyTsArg.intTs n => Except.ok (formatdateGmt n)
  | PyTsArg.tupleTs t => Except.ok (formatdateGmt (timegm t))
  | PyTsArg.structTimeTs t => Except.ok (formatdateGmt (timegm t))
  | PyTsArg.datetimeTs d => Except.ok (formatdateGmt (timegm d.utc))
  | PyTsArg.otherArg txt =>
      Except.error (HakoError.typeError ("unknown timestamp type: " ++ txt))

/-! ## Proof development: library-level lemmas -/

theorem lowerChar_lowerChar (c : Char) : lowerChar (lowerChar c) = lowerChar c := by
  unfold lowerChar
  by_cases h : 65 ≤ c.toNat ∧ c.toNat ≤ 90
  · rw [dif_pos h]
    have hv : (Char.ofNatAux (c.toNat + 32) (Or.inl (by omega))).toNat = c.toNat + 32 := rfl
    rw [dif_neg (by omega)]
  · rw [dif_neg h, dif_neg h]

theorem upperChar_upperChar (c : Char) : upperChar (upperChar c) = upperChar c := by
  unfold upperChar
  by_cases h : 97 ≤ c.toNat ∧ c.toNat ≤ 122
  · rw [dif_pos h]
    have hv : (Char.ofNatAux (c.toNat - 32) (Or.inl (by omega))).toNat = c.toNat - 32 := rfl
    rw [dif_neg (by omega)]
  · rw [dif_neg h, dif_neg h]

theorem asciiLower_asciiLower (s : String) : asciiLower (asciiLower s) = asciiLower s := by
  unfold asciiLower
  cases s with
  | mk data =>
    simp only [List.map_map]
    congr 1
    induction data with
    | nil => rfl
    | cons c cs ih =>
      simp only [List.map_cons, Function.comp_apply, lowerChar_lowerChar, ih]

theorem pyUpper_pyUpper (s : String) : pyUpper (pyUpper s) = pyUpper s := by
  unfold pyUpper
  cases s with
  | mk data =>
    simp only [List.map_map]
    congr 1
    induction data with
    | nil => rfl
    | cons c cs ih =>
      simp only [List.map_cons, Function.comp_apply, upperChar_upperChar, ih]

theorem b64Index_b64Char (n : Nat) (h : n < 64) : b64Index (b64Char n) = some n := by
  unfold b64Char b64Index
  split_ifs <;> first
    | (simp only [Option.some.injEq]; omega)
    | (exfalso; omega)

theorem b64Char_ne_61 (n : Nat) (h : n < 64) : b64Char n ≠ 61 := by
  unfold b64Char
  split_ifs <;> omega

/-- Round trip: decoding the canonical encoding of a byte sequence yields the
byte sequence back. -/
theorem b64decode_b64encode (bs : PyBytes) (hb : ∀ b ∈ bs, b < 256) :
    b64decode (b64encode bs) = some bs := by
  induction bs using b64encode.induct with
  | case1 => rfl
  | case2 a =>
    have ha : a < 256 := hb a (by simp)
    have h1 : a / 4 < 64 := by omega
    have h2 : a % 4 * 16 < 64 := by omega
    have e1 : a / 4 * 4 + a % 4 * 16 / 16 = a := by omega
    simp only [b64encode, b64decode, b64Index_b64Char _ h1, b64Index_b64Char _ h2,
      if_pos rfl, e1, and_self, if_true]
  | case3 a b =>
    have ha : a < 256 := hb a (by simp)
    have hbb : b < 256 := hb b (by simp)
    have h1 : a / 4 < 64 := by omega
    have h2 : a % 4 * 16 + b / 16 < 64 := by omega
    have h3 : b % 16 * 4 < 64 := by omega
    have e1 : a / 4 * 4 + (a % 4 * 16 + b / 16) / 16 = a := by omega
    have e2 : (a % 4 * 16 + b / 16) % 16 * 16 + b % 16 * 4 / 4 = b := by omega
    simp only [b64encode, b64decode, b64Index_b64Char _ h1, b64Index_b64Char _ h2,
      b64Index_b64Char _ h3, if_neg (b64Char_ne_61 _ h3), if_pos rfl, e1, e2, if_true]
  | case4 a b c rest ih =>
    have ha : a < 256 := hb a (by simp)
    have hbb : b < 256 := hb b (by simp)
    have hc : c < 256 := hb c (by simp)
    have hrest : ∀ x ∈ rest, x < 256 := fun x hx => hb x (by simp [hx])
    have h1 : a / 4 < 64 := by omega
    have h2 : a % 4 * 16 + b / 16 < 64 := by omega
    have h3 : b % 16 * 4 + c / 64 < 64 := by omega
    have h4 : c % 64 < 64 := by omega
    have htail := ih hrest
    have e1 : a / 4 * 4 + (a % 4 * 16 + b / 16) / 16 = a := by omega
    have e2 : (a % 4 * 16 + b / 16) % 16 * 16 + (b % 16 * 4 + c / 64) / 4 = b := by omega
    have e3 : (b % 16 * 4 + c / 64) % 4 * 64 + c % 64 = c := by omega
    simp only [b64encode, b64decode, b64Index_b64Char _ h1, b64Index_b64Char _ h2,
      b64Index_b64Char _ h3, b64Index_b64Char _ h4, if_neg (b64Char_ne_61 _ h3),
      if_neg (b64Char_ne_61 _ h4), htail, e1, e2, e3]

theorem utf8DecodeOne_length (b : Nat) (rest : PyBytes) (cp : Nat) (rest' : PyBytes)
    (h : utf8DecodeOne b rest = some (cp, rest')) : rest'.length ≤ rest.length := by
  unfold utf8DecodeOne at h
  repeat' split at h
  all_goals try simp only [Option.some.injEq, Prod.mk.injEq] at h
  all_goals first
    | exact Option.noConfusion h
    | (obtain ⟨h1, h2⟩ := h
       subst h2
       try simp only [List.length_cons]
       omega)

theorem utf8Encode_cons (c : Nat) (l : PyStr) :
    utf8Encode (c :: l) = utf8EncodeChar c ++ utf8Encode l := by
  simp [utf8Encode]

/-- Re-encoding one decoded code point reproduces exactly the bytes that were
consumed. -/
theorem utf8DecodeOne_encode (b : Nat) (rest : PyBytes) (cp : Nat) (rest' : PyBytes)
    (h : utf8DecodeOne b rest = some (cp, rest')) :
    utf8EncodeChar cp ++ rest' = b :: rest := by
  unfold utf8DecodeOne at h
  repeat' split at h
  all_goals try simp only [Option.some.injEq, Prod.mk.injEq] at h
  all_goals first
    | exact Option.noConfusion h
    | (obtain ⟨h1, h2⟩ := h
       subst h2
       subst h1
       unfold utf8EncodeChar
       split_ifs <;>
         simp only [List.cons_append, List.nil_append, List.cons.injEq, and_true, true_and] <;>
         omega)

/-- Round trip at any step budget: re-encoding a successfully decoded byte
sequence yields the byte sequence back. -/
theorem utf8Encode_utf8DecodeFuel (fuel : Nat) (bs : PyBytes) (cps : PyStr)
    (h : utf8DecodeFuel fuel bs = some cps) : utf8Encode cps = bs := by
  induction fuel generalizing bs cps with
  | zero =>
    cases bs with
    | nil =>
      simp only [utf8DecodeFuel, Option.some.injEq] at h
      subst h
      rfl
    | cons b rest => exact Option.noConfusion h
  | succ fuel ih =>
    cases bs with
    | nil =>
      simp only [utf8DecodeFuel, Option.some.injEq] at h
      subst h
      rfl
    | cons b rest =>
      rw [utf8DecodeFuel] at h
      cases hone : utf8DecodeOne b rest with
      | none =>
        simp only [hone] at h
        exact Option.noConfusion h
      | some pr =>
        obtain ⟨cp, rest'⟩ := pr
        simp only [hone] at h
        cases hrec : utf8DecodeFuel fuel rest' with
        | none =>
          simp only [hrec] at h
          exact Option.noConfusion h
        | some cps' =>
          simp only [hrec, Option.some.injEq] at h
          subst h
          rw [utf8Encode_cons, ih rest' cps' hrec,
            utf8DecodeOne_encode b rest cp rest' hone]

/-- Round trip: re-encoding a successfully decoded byte sequence yields the
byte sequence back (strict UTF-8 accepts only canonical encodings). -/
theorem utf8Encode_utf8Decode (bs : PyBytes) (cps : PyStr)
    (h : utf8Decode bs = some cps) : utf8Encode cps = bs :=
  utf8Encode_utf8DecodeFuel bs.length bs cps h

/-! ### Lemmas about flattening, lookup and grouping -/

theorem mkTolerantDict_append (l1 l2 : List (String × String)) :
    mkTolerantDict (l1 ++ l2) = mkTolerantDict l1 ++ mkTolerantDict l2 :=
  List.map_append _ l1 l2

theorem flattenMulti_cons (k : String) (vs : List String)
    (m : List (String × List String)) :
    flattenMulti ((k, vs) :: m) = vs.map (fun v => (k, v)) ++ flattenMulti m := by
  simp [flattenMulti]

theorem mkTolerantDict_seg (k : String) (vs : List String) :
    mkTolerantDict (vs.map (fun v => (k, v))) = vs.map (fun v => (asciiLower k, v)) := by
  unfold mkTolerantDict
  rw [List.map_map]
  rfl

/-- Filtering a single-name segment by an exact name keeps all of it or none
of it. -/
theorem filter_seg (k x : String) (vs : List String) :
    (vs.map (fun v => (k, v))).filter (fun p => p.1 = x) =
      if k = x then vs.map (fun v => (k, v)) else [] := by
  induction vs with
  | nil => simp
  | cons v vs ih =>
    by_cases hkx : k = x
    · subst hkx
      simp only [if_pos rfl] at ih ⊢
      simp [List.filter_cons, ih]
    · simp only [if_neg hkx] at ih ⊢
      simp [List.filter_cons, hkx, ih]

/-- Updating every entry whose key is `k` in a dictionary that does not
contain `k` changes nothing. -/
theorem map_update_of_ne (d : List (String × List String)) (k : String) (v : String)
    (hd : ∀ q ∈ d, q.1 ≠ k) :
    d.map (fun q => if q.1 = k then (q.1, q.2 ++ [v]) else q) = d := by
  induction d with
  | nil => rfl
  | cons q d ih =>
    simp only [List.map_cons, if_neg (hd q (by simp))]
    rw [ih (fun r hr => hd r (by simp [hr]))]

theorem any_key_eq_false (d : List (String × List String)) (k : String)
    (hd : ∀ q ∈ d, q.1 ≠ k) : d.any (fun q => q.1 = k) = false := by
  simp only [List.any_eq_false, decide_eq_true_eq]
  exact hd

/-- Folding the values of one name over a dictionary already ending in that
name appends all of them to that entry. -/
theorem foldl_groupStep_run (vs : List String) (k : String) (acc : List String)
    (d : List (String × List String)) (hk : k ≠ "content-length")
    (hd : ∀ q ∈ d, q.1 ≠ k) :
    (vs.map (fun v => (k, v))).foldl groupStep (d ++ [(k, acc)]) =
      d ++ [(k, acc ++ vs)] := by
  induction vs generalizing acc with
  | nil => simp
  | cons v vs ih =>
    simp only [List.map_cons, List.foldl_cons]
    have hstep : groupStep (d ++ [(k, acc)]) (k, v) = d ++ [(k, acc ++ [v])] := by
      simp [groupStep, dictSetDefaultAppend, hk, map_update_of_ne d k v hd]
    rw [hstep, ih (acc ++ [v])]
    simp

/-- Folding a nonempty single-name segment into a dictionary not containing
the name appends one new entry holding all the values in order. -/
theorem foldl_groupStep_seg (vs : List String) (k : String)
    (d : List (String × List String)) (hne : vs ≠ []) (hk : k ≠ "content-length")
    (hd : ∀ q ∈ d, q.1 ≠ k) :
    (vs.map (fun v => (k, v))).foldl groupStep d = d ++ [(k, vs)] := by
  cases vs with
  | nil => exact absurd rfl hne
  | cons v vs =>
    simp only [List.map_cons, List.foldl_cons]
    have hstep : groupStep d (k, v) = d ++ [(k, [v])] := by
      unfold groupStep dictSetDefaultAppend
      rw [if_neg hk, any_key_eq_false d k hd]
      simp
    rw [hstep, foldl_groupStep_run vs k [v] d hk hd]
    rfl

/-- Grouping the flattened, case-folded form of a multi-valued map
reconstructs the map (names case-folded), provided names are distinct
case-insensitively, value lists are nonempty, and no name is
`content-length`. -/
theorem foldl_groupStep_flatten (m : List (String × List String))
    (d : List (String × List String))
    (hdis : m.Pairwise (fun a b => asciiLower a.1 ≠ asciiLower b.1))
    (hne : ∀ p ∈ m, p.2 ≠ [])
    (hcl : ∀ p ∈ m, asciiLower p.1 ≠ "content-length")
    (habs : ∀ p ∈ m, ∀ q ∈ d, q.1 ≠ asciiLower p.1) :
    (mkTolerantDict (flattenMulti m)).foldl groupStep d =
      d ++ m.map (fun p => (asciiLower p.1, p.2)) := by
  induction m generalizing d with
  | nil => simp [mkTolerantDict, flattenMulti]
  | cons p m ih =>
    obtain ⟨k, vs⟩ := p
    rw [flattenMulti_cons, mkTolerantDict_append, mkTolerantDict_seg, List.foldl_append]
    have h1 : (vs.map (fun v => (asciiLower k, v))).foldl groupStep d =
        d ++ [(asciiLower k, vs)] :=
      foldl_groupStep_seg vs (asciiLower k) d (hne (k, vs) (by simp))
        (hcl (k, vs) (by simp)) (fun q hq => habs (k, vs) (by simp) q hq)
    rw [h1]
    have hdis' := (List.pairwise_cons.mp hdis).2
    have hdk := (List.pairwise_cons.mp hdis).1
    have h2 : (mkTolerantDict (flattenMulti m)).foldl groupStep
        (d ++ [(asciiLower k, vs)]) =
        (d ++ [(asciiLower k, vs)]) ++ m.map (fun p => (asciiLower p.1, p.2)) := by
      apply ih _ hdis'
      · intro q hq
        exact hne q (by simp [hq])
      · intro q hq
        exact hcl q (by simp [hq])
      · intro q hq r hr
        rcases List.mem_append.mp hr with hrd | hrk
        · exact habs q (by simp [hq]) r hrd
        · have hreq : r = (asciiLower k, vs) := by simpa using hrk
          rw [hreq]
          exact hdk q hq
    rw [h2]
    simp

/-- `get_all` on the flattened, case-folded form of a multi-valued map with
case-insensitively distinct names returns exactly the value list of the
matching name. -/
theorem getAll_flatten (m : List (String × List String)) (k : String)
    (vs : List String) (name : String)
    (hdis : m.Pairwise (fun a b => asciiLower a.1 ≠ asciiLower b.1))
    (hmem : (k, vs) ∈ m) (hname : asciiLower name = asciiLower k) :
    getAll (mkTolerantDict (flattenMulti m)) name = vs := by
  induction m with
  | nil => exact absurd hmem (by simp)
  | cons p m ih =>
    obtain ⟨k', vs'⟩ := p
    rw [flattenMulti_cons, mkTolerantDict_append, mkTolerantDict_seg]
    unfold getAll
    rw [List.filter_append, List.map_append, filter_seg]
    rcases List.mem_cons.mp hmem with hhead | htail
    · injection hhead with hk hvs
      subst hk
      subst hvs
      rw [if_pos hname.symm]
      have hrest : (mkTolerantDict (flattenMulti m)).filter
          (fun p => p.1 = asciiLower name) = [] := by
        rw [List.filter_eq_nil_iff]
        intro q hq
        simp only [decide_eq_true_eq]
        intro hq1
        -- q is an entry of the flattened tail: its name is the case folding
        -- of some name in the tail, distinct from `k`'s
        have : ∃ r ∈ m, asciiLower r.1 = q.1 := by
          unfold mkTolerantDict flattenMulti at hq
          rcases List.mem_map.mp hq with ⟨s, hs, hsq⟩
          rcases List.mem_flatten.mp hs with ⟨seg, hseg, hsseg⟩
          rcases List.mem_map.mp hseg with ⟨r, hr, hrseg⟩
          refine ⟨r, hr, ?_⟩
          subst hrseg
          rcases List.mem_map.mp hsseg with ⟨v, hv, hvs⟩
          subst hvs
          rw [← hsq]
        rcases this with ⟨r, hr, hrq⟩
        have := (List.pairwise_cons.mp hdis).1 r hr
        rw [hrq, hq1, hname] at this
        exact this rfl
      rw [hrest]
      simp [List.map_map]
    · have hk'ne : asciiLower k' ≠ asciiLower name := by
        have := (List.pairwise_cons.mp hdis).1 (k, vs) htail
        rw [hname]
        exact this
      rw [if_neg hk'ne]
      simp only [List.nil_append, List.map_nil]
      exact ih (List.pairwise_cons.mp hdis).2 htail

theorem mem_dictSetDefaultAppend_keys (d : List (String × List String)) (k v : String)
    (q : String × List String) (hq : q ∈ dictSetDefaultAppend d k v) :
    q.1 ∈ d.map (fun r => r.1) ∨ q.1 = k := by
  unfold dictSetDefaultAppend at hq
  split at hq
  · rcases List.mem_map.mp hq with ⟨r, hr, hrq⟩
    left
    have h1 : ((if r.1 = k then (r.1, r.2 ++ [v]) else r) : String × List String).1 = r.1 := by
      split <;> rfl
    rw [← hrq, h1]
    exact List.mem_map_of_mem _ hr
  · rcases List.mem_append.mp hq with hd | hk
    · exact Or.inl (List.mem_map_of_mem _ hd)
    · right
      have : q = (k, [v]) := by simpa using hk
      rw [this]

theorem mem_foldl_groupStep_keys (pairs : List (String × String))
    (d : List (String × List String)) (q : String × List String)
    (hq : q ∈ pairs.foldl groupStep d) :
    q.1 ∈ d.map (fun r => r.1) ∨
      (q.1 ∈ pairs.map (fun p => p.1) ∧ q.1 ≠ "content-length") := by
  induction pairs generalizing d with
  | nil => exact Or.inl (List.mem_map_of_mem _ hq)
  | cons p pairs ih =>
    simp only [List.foldl_cons] at hq
    rcases ih (groupStep d p) hq with hleft | hright
    · unfold groupStep at hleft
      split at hleft
      · exact Or.inl hleft
      · rcases List.mem_map.mp hleft with ⟨r, hr, hrq⟩
        rcases mem_dictSetDefaultAppend_keys d p.1 p.2 r hr with hkey | hkey
        · left
          rw [← hrq]
          exact hkey
        · right
          constructor
          · rw [← hrq, hkey]
            simp
          · rw [← hrq, hkey]
            rename_i hpcl
            exact hpcl
    · right
      exact ⟨by simp [hright.1], hright.2⟩

theorem persist_dictSetDefaultAppend (d : List (String × List String)) (k w n : String)
    (vs : List String) (v : String) (hmem : (n, vs) ∈ d) (hv : v ∈ vs) :
    ∃ vs', (n, vs') ∈ dictSetDefaultAppend d k w ∧ v ∈ vs' := by
  unfold dictSetDefaultAppend
  split
  · by_cases hnk : n = k
    · refine ⟨vs ++ [w], ?_, by simp [hv]⟩
      have := List.mem_map_of_mem (fun q => if q.1 = k then (q.1, q.2 ++ [w]) else q) hmem
      simpa [hnk] using this
    · refine ⟨vs, ?_, hv⟩
      have := List.mem_map_of_mem (fun q => if q.1 = k then (q.1, q.2 ++ [w]) else q) hmem
      simpa [hnk] using this
  · exact ⟨vs, List.mem_append_left _ hmem, hv⟩

theorem persist_groupStep (d : List (String × List String)) (p : String × String)
    (n : String) (vs : List String) (v : String) (hmem : (n, vs) ∈ d) (hv : v ∈ vs) :
    ∃ vs', (n, vs') ∈ groupStep d p ∧ v ∈ vs' := by
  unfold groupStep
  split
  · exact ⟨vs, hmem, hv⟩
  · exact persist_dictSetDefaultAppend d p.1 p.2 n vs v hmem hv

theorem persist_foldl_groupStep (pairs : List (String × String))
    (d : List (String × List String)) (n : String) (vs : List String) (v : String)
    (hmem : (n, vs) ∈ d) (hv : v ∈ vs) :
    ∃ vs', (n, vs') ∈ pairs.foldl groupStep d ∧ v ∈ vs' := by
  induction pairs generalizing d vs with
  | nil => exact ⟨vs, hmem, hv⟩
  | cons p pairs ih =>
    simp only [List.foldl_cons]
    rcases persist_groupStep d p n vs v hmem hv with ⟨vs2, h2, hv2⟩
    exact ih (groupStep d p) vs2 h2 hv2

theorem ins_dictSetDefaultAppend (d : List (String × List String)) (k v : String) :
    ∃ vs, (k, vs) ∈ dictSetDefaultAppend d k v ∧ v ∈ vs := by
  unfold dictSetDefaultAppend
  split_ifs with h
  · rcases List.any_eq_true.mp h with ⟨q, hq, hqk⟩
    simp only [decide_eq_true_eq] at hqk
    refine ⟨q.2 ++ [v], ?_, by simp⟩
    have := List.mem_map_of_mem (fun r => if r.1 = k then (r.1, r.2 ++ [v]) else r) hq
    simpa [hqk] using this
  · exact ⟨[v], by simp, by simp⟩

/-- Every non-`content-length` header pair survives grouping: its value is in
the entry of its name. -/
theorem groupHeaders_mem (pairs : List (String × String)) (n v : String)
    (hmem : (n, v) ∈ pairs) (hn : n ≠ "content-length") :
    ∃ vs, (n, vs) ∈ groupHeaders pairs ∧ v ∈ vs := by
  rcases List.append_of_mem hmem with ⟨l1, l2, rfl⟩
  unfold groupHeaders
  rw [List.foldl_append]
  simp only [List.foldl_cons]
  have hstep : groupStep (l1.foldl groupStep []) (n, v) =
      dictSetDefaultAppend (l1.foldl groupStep []) n v := by
    unfold groupStep
    rw [if_neg hn]
  rw [hstep]
  rcases ins_dictSetDefaultAppend (l1.foldl groupStep []) n v with ⟨vs0, h0, hv0⟩
  exact persist_foldl_groupStep l2 _ n vs0 v h0 hv0

/-- Every key of the grouped map comes from the input pairs and is not
`content-length`. -/
theorem groupHeaders_keys (pairs : List (String × String)) (q : String × List String)
    (hq : q ∈ groupHeaders pairs) :
    q.1 ∈ pairs.map (fun p => p.1) ∧ q.1 ≠ "content-length" := by
  rcases mem_foldl_groupStep_keys pairs [] q hq with h | h
  · simp at h
  · exact h

theorem parseMethod_pyUpper (s : String) : parseMethod (pyUpper s) = parseMethod s := by
  unfold parseMethod
  rw [pyUpper_pyUpper]

/-! ## Claims -/

/-- C1: the first `begin_response` (`write_response`) on a Request succeeds,
assigns the constructed Response into the Coordination Slot (`res_fur`) and
returns it; a call on a Request whose slot is already assigned fails with the
conflict error `HttpError(500, "You can only write response once.")` and
leaves the assigned Response in place.  The done-check and the assignment run
with no suspension point between them, so under asyncio's cooperative
scheduling the property is independent of interleaving. -/
theorem writeResponse_single_shot (req : LambdaRequest) (status status2 : Nat)
    (headers headers2 : List (String × String)) (hfresh : req.res_fur = none) :
    writeResponse req status headers =
      (Except.ok { status_code := status, headers := mkTolerantDict headers, body_chunks := [], finished := false },
        { req with res_fur := some { status_code := status, headers := mkTolerantDict headers, body_chunks := [], finished := false } }) ∧
    ∀ (req' : LambdaRequest) (r : LambdaResponse), req'.res_fur = some r →
      writeResponse req' status2 headers2 =
        (Except.error (HakoError.httpError 500 "You can only write response once."), req') := by
  constructor
  · unfold writeResponse
    rw [hfresh]
    rfl
  · intro req' r hr
    unfold writeResponse
    rw [hr]
    rfl

theorem writeResponse_single_shot_witness :
    writeResponse { body := [], method := HttpRequestMethod.get, version := HttpVersion.v1_1, uri := "/", authority := none, queries := [], headers := [], scheme := none, res_fur := none } 200 [] =
      (Except.ok { status_code := 200, headers := [], body_chunks := [], finished := false },
        { body := [], method := HttpRequestMethod.get, version := HttpVersion.v1_1, uri := "/", authority := none, queries := [], headers := [], scheme := none, res_fur := some { status_code := 200, headers := [], body_chunks := [], finished := false } }) ∧
    writeResponse { body := [], method := HttpRequestMethod.get, version := HttpVersion.v1_1, uri := "/", authority := none, queries := [], headers := [], scheme := none, res_fur := some { status_code := 200, headers := [], body_chunks := [], finished := false } } 200 [] =
      (Except.error (HakoError.httpError 500 "You can only write response once."),
        { body := [], method := HttpRequestMethod.get, version := HttpVersion.v1_1, uri := "/", authority := none, queries := [], headers := [], scheme := none, res_fur := some { status_code := 200, headers := [], body_chunks := [], finished := false } }) := by
  have h := writeResponse_single_shot { body := [], method := HttpRequestMethod.get, version := HttpVersion.v1_1, uri := "/", authority := none, queries := [], headers := [], scheme := none, res_fur := none } 200 200 [] [] rfl
  exact ⟨h.1, h.2 _ _ rfl⟩

/-- C2 (counterexample): calling `write` on a finished Response does not fail
with an illegal-state error — `LambdaResponse.write` performs no finished
check and appends the fragment exactly as before `finish`. -/
theorem write_after_finish_appends :
    LambdaResponse.write (LambdaResponse.finish { status_code := 200, headers := [], body_chunks := [], finished := false }) [104, 105] =
      { status_code := 200, headers := [], body_chunks := [[104, 105]], finished := true } := rfl

/-- C2 (amended): `write(fragment)` appends a non-empty fragment to the end of
the fragment sequence and is a no-op for an empty fragment, in both cases
regardless of whether `finish` has been called — it never fails — and it
changes nothing else about the Response. -/
theorem LambdaResponse_write_spec (resp : LambdaResponse) (data : PyBytes) :
    (resp.write data).body_chunks =
      (if data = [] then resp.body_chunks else resp.body_chunks ++ [data]) ∧
    (resp.write data).finished = resp.finished ∧
    (resp.write data).status_code = resp.status_code ∧
    (resp.write data).headers = resp.headers := by
  unfold LambdaResponse.write
  by_cases hd : data = []
  · simp [hd]
  · simp [hd]

/-- C6: `translate` on an unfinished Response always fails with the
precondition (assertion) error; on a finished Response it never fails and
returns the outbound envelope. -/
theorem translate_requires_finished (resp : LambdaResponse) :
    (resp.finished = false →
      resp.translate =
        Except.error (HakoError.assertionError "This response is not finished.")) ∧
    (resp.finished = true → (resp.translate).isOk = true) := by
  constructor
  · intro hf
    unfold LambdaResponse.translate
    rw [hf]
    rfl
  · intro hf
    unfold LambdaResponse.translate
    rw [hf]
    simp only [if_true]
    split <;> rfl

theorem translate_requires_finished_witness :
    LambdaResponse.translate { status_code := 200, headers := [], body_chunks := [], finished := false } =
      Except.error (HakoError.assertionError "This response is not finished.") ∧
    (LambdaResponse.translate { status_code := 200, headers := [], body_chunks := [[104]], finished := true }).isOk = true :=
  ⟨(translate_requires_finished _).1 rfl, (translate_requires_finished _).2 rfl⟩

/-- C8: when the router resolves no route for the path, `process_request`
substitutes the built-in `DefaultHandler`, whose `before` hook raises
`HttpError(404)`; the transaction's outcome is the 404 status with no
handler-specific side effects, whatever the (never reached) remainder of the
default handler would do. -/
theorem processRequest_no_match (resolve : String → Option ModelHandler)
    (defaultRun : Nat × List String) (path : String) (hmiss : resolve path = none) :
    processRequest resolve defaultRun path = (404, []) := by
  unfold processRequest
  rw [hmiss]
  rfl

theorem processRequest_no_match_witness :
    processRequest (fun _ => none) (200, ["handler side effect"]) "/missing" = (404, []) :=
  processRequest_no_match _ _ _ rfl

/-- C10: the inbound `httpMethod` string is accepted case-insensitively — it
is upper-cased before the closed-enum lookup, so a string whose upper-cased
form is a recognized method parses to the same method as its upper-case
spelling, and Request construction is unchanged by upper-casing the method;
a string whose upper-cased form is unrecognized fails the parse with a
`ValueError`, and Request construction fails. -/
theorem method_case_insensitive (s : String) (e : LambdaEvent) :
    (∀ m, HttpRequestMethod.fromString (pyUpper s) = some m →
      parseMethod s = Except.ok m ∧ parseMethod (pyUpper s) = Except.ok m) ∧
    (HttpRequestMethod.fromString (pyUpper s) = none →
      parseMethod s = Except.error (HakoError.valueError (pyUpper s))) ∧
    mkLambdaRequest e = mkLambdaRequest { e with httpMethod := pyUpper e.httpMethod } ∧
    (∀ r, mkLambdaRequest e = Except.ok r → parseMethod e.httpMethod = Except.ok r.method) ∧
    (HttpRequestMethod.fromString (pyUpper e.httpMethod) = none →
      (mkLambdaRequest e).isOk = false) := by
  refine ⟨?_, ?_, ?_, ?_, ?_⟩
  · intro m hm
    constructor
    · unfold parseMethod
      rw [hm]
    · rw [parseMethod_pyUpper]
      unfold parseMethod
      rw [hm]
  · intro hn
    unfold parseMethod
    rw [hn]
  · simp only [mkLambdaRequest, parseMethod_pyUpper]
    rfl
  · intro r h
    unfold mkLambdaRequest at h
    repeat' split at h
    all_goals try exact Except.noConfusion h
    injection h with h
    subst h
    assumption
  · intro hn
    have hpm : parseMethod e.httpMethod =
        Except.error (HakoError.valueError (pyUpper e.httpMethod)) := by
      unfold parseMethod
      rw [hn]
    unfold mkLambdaRequest
    split
    · rfl
    · rw [hpm]
      rfl

theorem method_case_insensitive_witness :
    (parseMethod "get" = Except.ok HttpRequestMethod.get ∧
      parseMethod "GET" = Except.ok HttpRequestMethod.get) ∧
    parseMethod "getx" = Except.error (HakoError.valueError "GETX") := by
  constructor
  · exact (method_case_insensitive "get"
      { isBase64Encoded := false, body := some none, httpMethod := "get",
        protocol := "HTTP/1.1", path := none, domainName := none,
        multiValueQueryStringParameters := none, multiValueHeaders := [] }).1
      HttpRequestMethod.get (by decide)
  · have h := (method_case_insensitive "getx"
      { isBase64Encoded := false, body := some none, httpMethod := "getx",
        protocol := "HTTP/1.1", path := none, domainName := none,
        multiValueQueryStringParameters := none, multiValueHeaders := [] }).2.1 (by decide)
    have he : pyUpper "getx" = "GETX" := by decide
    rw [he] at h
    exact h

/-- C5 (counterexample): an event with `isBase64Encoded = true` and a null
`body` does not yield an empty body — `base64.b64decode(None)` raises a
`TypeError`, so Request construction fails. -/
theorem eventBodyBytes_null_base64_fails :
    eventBodyBytes { isBase64Encoded := true, body := some none, httpMethod := "GET", protocol := "HTTP/1.1", path := none, domainName := none, multiValueQueryStringParameters := none, multiValueHeaders := [] } =
      Except.error (HakoError.typeError "b64decode expects str or bytes, not NoneType") := rfl

/-- Every character of a base64 encoding is ASCII. -/
theorem b64Char_lt_128 (n : Nat) : b64Char n < 128 := by
  unfold b64Char
  split_ifs <;> omega

theorem b64encode_ascii (bs : PyBytes) : ∀ c ∈ b64encode bs, c < 128 := by
  induction bs using b64encode.induct with
  | case1 =>
    intro c hc
    exact absurd hc (by simp [b64encode])
  | case2 a =>
    intro c hc
    simp only [b64encode, List.mem_cons, List.not_mem_nil, or_false] at hc
    rcases hc with rfl | rfl | rfl | rfl <;> first | exact b64Char_lt_128 _ | omega
  | case3 a b =>
    intro c hc
    simp only [b64encode, List.mem_cons, List.not_mem_nil, or_false] at hc
    rcases hc with rfl | rfl | rfl | rfl <;> first | exact b64Char_lt_128 _ | omega
  | case4 a b c rest ih =>
    intro x hx
    simp only [b64encode, List.mem_cons] at hx
    rcases hx with rfl | rfl | rfl | rfl | hx
    · exact b64Char_lt_128 _
    · exact b64Char_lt_128 _
    · exact b64Char_lt_128 _
    · exact b64Char_lt_128 _
    · exact ih x hx

/-- The non-strict decoding loop inverts the canonical encoding: fed the
encoding of a byte sequence from a fresh group state, it emits exactly those
bytes after the accumulator. -/
theorem a2bBase64Aux_b64encode (bs : PyBytes) (acc : PyBytes)
    (hb : ∀ b ∈ bs, b < 256) :
    a2bBase64Aux (b64encode bs) 0 0 0 acc = Except.ok (acc ++ bs) := by
  induction bs using b64encode.induct generalizing acc with
  | case1 => simp [b64encode, a2bBase64Aux]
  | case2 a =>
    have ha : a < 256 := hb a (by simp)
    have h1 : a / 4 < 64 := by omega
    have h2 : a % 4 * 16 < 64 := by omega
    have e1 : a / 4 * 4 + a % 4 * 16 / 16 = a := by omega
    simp only [b64encode, a2bBase64Aux, b64Index_b64Char _ h1, b64Index_b64Char _ h2,
      if_neg (b64Char_ne_61 _ h1), if_neg (b64Char_ne_61 _ h2), e1]
    norm_num
  | case3 a b =>
    have ha : a < 256 := hb a (by simp)
    have hbb : b < 256 := hb b (by simp)
    have h1 : a / 4 < 64 := by omega
    have h2 : a % 4 * 16 + b / 16 < 64 := by omega
    have h3 : b % 16 * 4 < 64 := by omega
    have e1 : a / 4 * 4 + (a % 4 * 16 + b / 16) / 16 = a := by omega
    have e2 : (a % 4 * 16 + b / 16) % 16 * 16 + b % 16 * 4 / 4 = b := by omega
    simp only [b64encode, a2bBase64Aux, b64Index_b64Char _ h1, b64Index_b64Char _ h2,
      b64Index_b64Char _ h3, if_neg (b64Char_ne_61 _ h1), if_neg (b64Char_ne_61 _ h2),
      if_neg (b64Char_ne_61 _ h3), e1, e2]
    norm_num
  | case4 a b c rest ih =>
    have ha : a < 256 := hb a (by simp)
    have hbb : b < 256 := hb b (by simp)
    have hc : c < 256 := hb c (by simp)
    have hrest : ∀ x ∈ rest, x < 256 := fun x hx => hb x (by simp [hx])
    have h1 : a / 4 < 64 := by omega
    have h2 : a % 4 * 16 + b / 16 < 64 := by omega
    have h3 : b % 16 * 4 + c / 64 < 64 := by omega
    have h4 : c % 64 < 64 := by omega
    have e1 : a / 4 * 4 + (a % 4 * 16 + b / 16) / 16 = a := by omega
    have e2 : (a % 4 * 16 + b / 16) % 16 * 16 + (b % 16 * 4 + c / 64) / 4 = b := by omega
    have e3 : (b % 16 * 4 + c / 64) % 4 * 64 + c % 64 = c := by omega
    simp only [b64encode, a2bBase64Aux, b64Index_b64Char _ h1, b64Index_b64Char _ h2,
      b64Index_b64Char _ h3, b64Index_b64Char _ h4, if_neg (b64Char_ne_61 _ h1),
      if_neg (b64Char_ne_61 _ h2), if_neg (b64Char_ne_61 _ h3), if_neg (b64Char_ne_61 _ h4),
      e1, e2, e3]
    rw [ih (acc ++ [a] ++ [b] ++ [c]) hrest]
    simp

/-- Python's lenient `b64decode` inverts the canonical encoding. -/
theorem pyB64Decode_b64encode (bs : PyBytes) (hb : ∀ b ∈ bs, b < 256) :
    pyB64Decode (b64encode bs) = Except.ok bs := by
  unfold pyB64Decode
  have hascii : (b64encode bs).any (fun c => 128 ≤ c) = false := by
    simp only [List.any_eq_false, decide_eq_true_eq]
    intro c hc
    have := b64encode_ascii bs c hc
    omega
  rw [hascii]
  simp only [Bool.false_eq_true, if_false]
  exact a2bBase64Aux_b64encode bs [] hb

/-- C5 (amended): the constructed Request's body is, when `isBase64Encoded`
is true and the body is a string, the result of Python's lenient
`base64.b64decode` of it (non-alphabet characters discarded, non-ASCII
strings and incorrect padding failing) — in particular decoding the
canonical encoding of any byte sequence yields exactly those bytes; when the
flag is false and the body is a present string, its UTF-8 encoding unless it
contains a lone surrogate, which fails with `UnicodeEncodeError`; and the
empty byte sequence when the flag is false and the body is null or empty.
An absent `body` key fails with a `KeyError` whatever the flag, and a null
body with the flag set fails with a `TypeError`. -/
theorem eventBodyBytes_spec (e : LambdaEvent) :
    (e.body = none → eventBodyBytes e = Except.error (HakoError.keyError "body")) ∧
    (e.body = some none →
      eventBodyBytes e =
        (if e.isBase64Encoded then
          Except.error (HakoError.typeError "b64decode expects str or bytes, not NoneType")
        else Except.ok [])) ∧
    (∀ s, e.body = some (some s) → e.isBase64Encoded = true →
      eventBodyBytes e = pyB64Decode s) ∧
    (∀ bs, (∀ b ∈ bs, b < 256) → pyB64Decode (b64encode bs) = Except.ok bs) ∧
    (∀ s, e.body = some (some s) → e.isBase64Encoded = false →
      (∀ c ∈ s, ¬(55296 ≤ c ∧ c ≤ 57343)) →
      eventBodyBytes e = Except.ok (utf8Encode s)) ∧
    (∀ s c, e.body = some (some s) → e.isBase64Encoded = false → c ∈ s →
      55296 ≤ c → c ≤ 57343 →
      eventBodyBytes e =
        Except.error (HakoError.unicodeEncodeError "surrogates not allowed")) ∧
    (∀ r, mkLambdaRequest e = Except.ok r → eventBodyBytes e = Except.ok r.body) := by
  refine ⟨?_, ?_, ?_, ?_, ?_, ?_, ?_⟩
  · intro hb
    unfold eventBodyBytes
    rw [hb]
    split <;> rfl
  · intro hb
    unfold eventBodyBytes
    rw [hb]
  · intro s hb hflag
    unfold eventBodyBytes
    rw [hb, hflag]
    rfl
  · intro bs hbs
    exact pyB64Decode_b64encode bs hbs
  · intro s hb hflag hsur
    unfold eventBodyBytes
    rw [hb, hflag]
    simp only [Bool.false_eq_true, if_false]
    by_cases hs : s = []
    · subst hs
      rfl
    · rw [if_neg hs]
      unfold pyStrEncode
      have hany : s.any (fun c => 55296 ≤ c ∧ c ≤ 57343) = false := by
        simp only [List.any_eq_false, decide_eq_true_eq]
        exact hsur
      rw [hany]
      simp
  · intro s c hb hflag hcs hc1 hc2
    unfold eventBodyBytes
    rw [hb, hflag]
    simp only [Bool.false_eq_true, if_false]
    have hs : s ≠ [] := by
      intro hnil
      rw [hnil] at hcs
      exact absurd hcs (by simp)
    rw [if_neg hs]
    unfold pyStrEncode
    have hany : s.any (fun c => 55296 ≤ c ∧ c ≤ 57343) = true := by
      simp only [List.any_eq_true, decide_eq_true_eq]
      exact ⟨c, hcs, hc1, hc2⟩
    rw [hany]
    simp
  · intro r h
    unfold mkLambdaRequest at h
    repeat' split at h
    all_goals try exact Except.noConfusion h
    injection h with h
    subst h
    assumption

theorem eventBodyBytes_spec_witness :
    eventBodyBytes { isBase64Encoded := false, body := some none, httpMethod := "GET", protocol := "HTTP/1.1", path := none, domainName := none, multiValueQueryStringParameters := none, multiValueHeaders := [] } = Except.ok [] ∧
    eventBodyBytes { isBase64Encoded := true, body := some (some [97, 71, 107, 61, 10]), httpMethod := "GET", protocol := "HTTP/1.1", path := none, domainName := none, multiValueQueryStringParameters := none, multiValueHeaders := [] } = Except.ok [104, 105] ∧
    pyB64Decode (b64encode [0, 255, 10]) = Except.ok [0, 255, 10] ∧
    eventBodyBytes { isBase64Encoded := false, body := some (some [104, 105]), httpMethod := "GET", protocol := "HTTP/1.1", path := none, domainName := none, multiValueQueryStringParameters := none, multiValueHeaders := [] } = Except.ok (utf8Encode [104, 105]) ∧
    eventBodyBytes { isBase64Encoded := false, body := some (some [55296]), httpMethod := "GET", protocol := "HTTP/1.1", path := none, domainName := none, multiValueQueryStringParameters := none, multiValueHeaders := [] } = Except.error (HakoError.unicodeEncodeError "surrogates not allowed") ∧
    eventBodyBytes { isBase64Encoded := false, body := none, httpMethod := "GET", protocol := "HTTP/1.1", path := none, domainName := none, multiValueQueryStringParameters := none, multiValueHeaders := [] } = Except.error (HakoError.keyError "body") := by
  refine ⟨?_, ?_, ?_, ?_, ?_, ?_⟩
  · have h := (eventBodyBytes_spec { isBase64Encoded := false, body := some none, httpMethod := "GET", protocol := "HTTP/1.1", path := none, domainName := none, multiValueQueryStringParameters := none, multiValueHeaders := [] }).2.1 rfl
    simpa using h
  · exact ((eventBodyBytes_spec _).2.2.1 [97, 71, 107, 61, 10] rfl rfl).trans rfl
  · exact (eventBodyBytes_spec { isBase64Encoded := false, body := some none, httpMethod := "GET", protocol := "HTTP/1.1", path := none, domainName := none, multiValueQueryStringParameters := none, multiValueHeaders := [] }).2.2.2.1 [0, 255, 10] (by decide)
  · exact (eventBodyBytes_spec _).2.2.2.2.1 [104, 105] rfl rfl (by decide)
  · exact (eventBodyBytes_spec _).2.2.2.2.2.1 [55296] 55296 rfl rfl (by decide) (by decide) (by decide)
  · exact (eventBodyBytes_spec _).1 rfl

/-- C3: for a finished Response the translated body is derived from the
concatenation of all written fragments in write order: when those bytes are
valid UTF-8 the envelope carries `isBase64Encoded = false` and the decoded
text, and re-encoding that text as UTF-8 reconstructs the bytes exactly;
otherwise it carries `isBase64Encoded = true` and the standard base64
encoding of the bytes, whose base64 decoding reconstructs them exactly. -/
theorem translate_body_roundtrip (resp : LambdaResponse) (hfin : resp.finished = true)
    (hbytes : ∀ chunk ∈ resp.body_chunks, ∀ b ∈ chunk, b < 256) :
    (∃ cps, utf8Decode resp.body_chunks.flatten = some cps ∧
      resp.translate = Except.ok { isBase64Encoded := false, statusCode := resp.status_code, multiValueHeaders := groupHeaders resp.headers, body := cps } ∧
      utf8Encode cps = resp.body_chunks.flatten) ∨
    (utf8Decode resp.body_chunks.flatten = none ∧
      resp.translate = Except.ok { isBase64Encoded := true, statusCode := resp.status_code, multiValueHeaders := groupHeaders resp.headers, body := b64encode resp.body_chunks.flatten } ∧
      b64decode (b64encode resp.body_chunks.flatten) = some resp.body_chunks.flatten) := by
  have hlt : ∀ b ∈ resp.body_chunks.flatten, b < 256 := by
    intro b hb
    rcases List.mem_flatten.mp hb with ⟨chunk, hc, hbc⟩
    exact hbytes chunk hc b hbc
  cases hdec : utf8Decode resp.body_chunks.flatten with
  | some cps =>
    left
    refine ⟨cps, rfl, ?_, utf8Encode_utf8Decode _ _ hdec⟩
    unfold LambdaResponse.translate
    rw [hfin]
    simp only [if_true]
    rw [hdec]
  | none =>
    right
    refine ⟨rfl, ?_, b64decode_b64encode _ hlt⟩
    unfold LambdaResponse.translate
    rw [hfin]
    simp only [if_true]
    rw [hdec]

theorem translate_body_roundtrip_witness :
    (∃ cps, utf8Decode (({ status_code := 200, headers := [], body_chunks := [[104, 105]], finished := true } : LambdaResponse)).body_chunks.flatten = some cps ∧
      LambdaResponse.translate { status_code := 200, headers := [], body_chunks := [[104, 105]], finished := true } = Except.ok { isBase64Encoded := false, statusCode := 200, multiValueHeaders := groupHeaders [], body := cps } ∧
      utf8Encode cps = (({ status_code := 200, headers := [], body_chunks := [[104, 105]], finished := true } : LambdaResponse)).body_chunks.flatten) ∨
    (utf8Decode (({ status_code := 200, headers := [], body_chunks := [[104, 105]], finished := true } : LambdaResponse)).body_chunks.flatten = none ∧
      LambdaResponse.translate { status_code := 200, headers := [], body_chunks := [[104, 105]], finished := true } = Except.ok { isBase64Encoded := true, statusCode := 200, multiValueHeaders := groupHeaders [], body := b64encode (({ status_code := 200, headers := [], body_chunks := [[104, 105]], finished := true } : LambdaResponse)).body_chunks.flatten } ∧
      b64decode (b64encode (({ status_code := 200, headers := [], body_chunks := [[104, 105]], finished := true } : LambdaResponse)).body_chunks.flatten) = some (({ status_code := 200, headers := [], body_chunks := [[104, 105]], finished := true } : LambdaResponse)).body_chunks.flatten) :=
  translate_body_roundtrip
    { status_code := 200, headers := [], body_chunks := [[104, 105]], finished := true }
    rfl (by decide)

/-- C4 (counterexample): the round trip is not order-preserving for every
name — a `Content-Length` entry survives `get_all` on the Request side but is
dropped by the translation back to multi-valued form, so its values are not
reproduced. -/
theorem multivalue_roundtrip_content_length_cex :
    getAll (mkTolerantDict (flattenMulti [("Content-Length", ["5"])])) "content-length" = ["5"] ∧
    groupHeaders (mkTolerantDict (flattenMulti [("Content-Length", ["5"])])) = [] := by
  decide

/-- C4 (amended): flattening a transport-side name-to-list-of-values map into
the container and translating back to multi-valued form is order-preserving
for maps whose names are pairwise distinct case-insensitively, have nonempty
value lists and do not include `content-length` (which translation drops):
`get_all` under any casing returns exactly the original list in order, and
the translated multi-valued map is exactly the original map with names
case-folded — distinct names in first-seen order, values in order. -/
theorem multivalue_roundtrip (m : List (String × List String))
    (hdis : m.Pairwise (fun a b => asciiLower a.1 ≠ asciiLower b.1))
    (hne : ∀ p ∈ m, p.2 ≠ [])
    (hcl : ∀ p ∈ m, asciiLower p.1 ≠ "content-length") :
    (∀ p ∈ m, ∀ name, asciiLower name = asciiLower p.1 →
      getAll (mkTolerantDict (flattenMulti m)) name = p.2) ∧
    groupHeaders (mkTolerantDict (flattenMulti m)) =
      m.map (fun p => (asciiLower p.1, p.2)) := by
  constructor
  · intro p hp name hname
    exact getAll_flatten m p.1 p.2 name hdis hp hname
  · unfold groupHeaders
    rw [foldl_groupStep_flatten m [] hdis hne hcl (by intro p hp q hq; exact absurd hq (by simp))]
    rfl

theorem multivalue_roundtrip_witness :
    getAll (mkTolerantDict (flattenMulti [("Set-Cookie", ["a=1", "b=2"])])) "set-cookie" = ["a=1", "b=2"] ∧
    groupHeaders (mkTolerantDict (flattenMulti [("Set-Cookie", ["a=1", "b=2"])])) = [("set-cookie", ["a=1", "b=2"])] := by
  have h := multivalue_roundtrip [("Set-Cookie", ["a=1", "b=2"])]
    (by simp) (by decide) (by decide)
  constructor
  · exact h.1 ("Set-Cookie", ["a=1", "b=2"]) (by simp) "set-cookie" (by decide)
  · rw [h.2]
    decide

/-- C7: for a finished Response whose headers were built by the container
from the handler-supplied pairs, no entry of the translated envelope's
`multiValueHeaders` is named `content-length` under case-insensitive
comparison, whatever value the handler set; and every other header pair
appears — its case-folded name is a key, and its value is in that key's
list. -/
theorem translate_drops_content_length (hs : List (String × String))
    (resp : LambdaResponse) (hresp : resp.headers = mkTolerantDict hs)
    (hfin : resp.finished = true) (env : LambdaEnvelope)
    (htr : resp.translate = Except.ok env) :
    (∀ entry ∈ env.multiValueHeaders, asciiLower entry.1 ≠ "content-length") ∧
    (∀ p ∈ hs, asciiLower p.1 ≠ "content-length" →
      ∃ vs, (asciiLower p.1, vs) ∈ env.multiValueHeaders ∧ p.2 ∈ vs) := by
  have henv : env.multiValueHeaders = groupHeaders resp.headers := by
    unfold LambdaResponse.translate at htr
    rw [hfin] at htr
    simp only [if_true] at htr
    split at htr <;> (injection htr with htr; rw [← htr])
  constructor
  · intro entry hentry
    rw [henv, hresp] at hentry
    have hk := groupHeaders_keys _ entry hentry
    rcases List.mem_map.mp hk.1 with ⟨q, hq, hqk⟩
    rcases List.mem_map.mp hq with ⟨p0, hp0, hp0q⟩
    have hent : entry.1 = asciiLower p0.1 := by
      rw [← hqk, ← hp0q]
    rw [hent, asciiLower_asciiLower]
    rw [hent] at hk
    exact hk.2
  · intro p hp hpn
    rw [henv, hresp]
    have hmem : (asciiLower p.1, p.2) ∈ mkTolerantDict hs :=
      List.mem_map_of_mem _ hp
    exact groupHeaders_mem _ (asciiLower p.1) p.2 hmem hpn

theorem translate_drops_content_length_witness :
    asciiLower "content-type" ≠ "content-length" ∧
    (∃ vs, ("content-type", vs) ∈ [("content-type", ["text/plain"])] ∧ "text/plain" ∈ vs) := by
  have h := translate_drops_content_length
    [("Content-Length", "5"), ("Content-Type", "text/plain")]
    { status_code := 200, headers := mkTolerantDict [("Content-Length", "5"), ("Content-Type", "text/plain")], body_chunks := [], finished := true }
    rfl rfl
    { isBase64Encoded := false, statusCode := 200, multiValueHeaders := [("content-type", ["text/plain"])], body := [] }
    rfl
  constructor
  · exact h.1 ("content-type", ["text/plain"]) (by simp)
  · have h2 := h.2 ("Content-Type", "text/plain") (by simp) (by decide)
    have hlc : asciiLower "Content-Type" = "content-type" := by decide
    rw [hlc] at h2
    exact h2

/-- C9 (counterexample): an argument of type `NoneType` is not one of the
three accepted timestamp forms, yet `format_timestamp(None)` does not raise
a `TypeError` — it formats the current time (`time.time()`, here 0). -/
theorem format_timestamp_none_cex :
    format_timestamp 0 PyTsArg.noneArg = Except.ok "Thu, 01 Jan 1970 00:00:00 GMT" := rfl

/-- C9 (amended): `format_timestamp` accepts an epoch-seconds number, a
broken-down UTC time tuple (or `struct_time`), or a (timezone-aware)
datetime, and returns an HTTP date string ending in `GMT`, with all three
representations of the same instant yielding the identical string; `None`
formats the current time instead of raising; every argument of any other
type raises a `TypeError`. -/
theorem format_timestamp_spec (now n : Int) (t : TimeTuple) (d : PyDatetime)
    (txt : String) (ht : timegm t = n) (hd : timegm d.utc = n) :
    (∃ s, format_timestamp now (PyTsArg.intTs n) = Except.ok (s ++ " GMT")) ∧
    format_timestamp now (PyTsArg.tupleTs t) = format_timestamp now (PyTsArg.intTs n) ∧
    format_timestamp now (PyTsArg.structTimeTs t) = format_timestamp now (PyTsArg.intTs n) ∧
    format_timestamp now (PyTsArg.datetimeTs d) = format_timestamp now (PyTsArg.intTs n) ∧
    format_timestamp now PyTsArg.noneArg = Except.ok (httpDateBody now ++ " GMT") ∧
    format_timestamp now (PyTsArg.otherArg txt) =
      Except.error (HakoError.typeError ("unknown timestamp type: " ++ txt)) := by
  refine ⟨⟨httpDateBody n, rfl⟩, ?_, ?_, ?_, rfl, rfl⟩
  · simp only [format_timestamp]
    rw [ht]
  · simp only [format_timestamp]
    rw [ht]
  · simp only [format_timestamp]
    rw [hd]

theorem format_timestamp_spec_witness :
    (∃ s, format_timestamp 0 (PyTsArg.intTs 784111777) = Except.ok (s ++ " GMT")) ∧
    format_timestamp 0 (PyTsArg.tupleTs ⟨1994, 11, 6, 8, 49, 37⟩) = format_timestamp 0 (PyTsArg.intTs 784111777) ∧
    format_timestamp 0 (PyTsArg.structTimeTs ⟨1994, 11, 6, 8, 49, 37⟩) = format_timestamp 0 (PyTsArg.intTs 784111777) ∧
    format_timestamp 0 (PyTsArg.datetimeTs ⟨⟨1994, 11, 6, 8, 49, 37⟩⟩) = format_timestamp 0 (PyTsArg.intTs 784111777) ∧
    format_timestamp 0 PyTsArg.noneArg = Except.ok (httpDateBody 0 ++ " GMT") ∧
    format_timestamp 0 (PyTsArg.otherArg "dict") =
      Except.error (HakoError.typeError ("unknown timestamp type: " ++ "dict")) :=
  format_timestamp_spec 0 784111777 ⟨1994, 11, 6, 8, 49, 37⟩ ⟨⟨1994, 11, 6, 8, 49, 37⟩⟩
    "dict" (by decide) (by decide)

end Hakoniwa
